import Mathlib

/-!
Verification of the layered caching subsystem of the `layer3-top-users`
repository (the `db` module: SQLite-backed store plus in-memory accelerator).

The embedding translates the source functions `cleanExpiredEntries`,
`isValidUserData`, `saveUsers`, `getUsers`, `getUserByAddress`,
`isAddressAllowed`, `isAvatarAllowed`, `saveWalletData` and `getWalletData`
into pure functions over an explicit state `DbState` holding the three SQLite
tables (`users`, `wallet_data`, `avatars`) and the three process-wide caches
(`userCache`, `walletCache`, `avatarCache`).  The wall clock (`Date.now()`)
is passed explicitly as an integer millisecond timestamp.

JavaScript runtime values reaching the cache layer are modelled by `JsVal`
(string, number, or `undefined`), so that a batch element with a missing or
mistyped field is representable exactly as at run time.  `better-sqlite3`
semantics modelled here: binding `undefined` to a statement parameter throws;
strings and numbers bind verbatim; a `db.transaction` function rolls the
database back wholly when the wrapped function throws, while any JavaScript
map/set mutations already performed inside it survive; `INSERT OR REPLACE`
deletes the conflicting primary-key row and appends the new row.  SQL
`LOWER(...)` and JavaScript `toLowerCase()` are both modelled by ASCII
lowercasing (all addresses involved are ASCII hex strings).

Wallet payloads are opaque to the cache layer; `JSON.stringify`/`JSON.parse`
are modelled on a small value universe (`Json`) that suffices to distinguish
payloads that deserialize from ones that do not.

Functions that can throw return `Except Unit α` together with the post-call
state (caches mutated before the throw keep their mutations; the SQLite
transaction itself is rolled back).
-/

namespace Layer3

/-- A JavaScript runtime value as seen by the cache layer: a string, a
number (integral in all data handled here), or `undefined` for a missing
object field. -/
inductive JsVal where
  | str (s : String)
  | num (n : Int)
  | undef
deriving DecidableEq, Repr

/-- The runtime shape of a candidate `UserData` object passed to `saveUsers`
(field order as in `lib/types.ts`).  A well-typed `UserData` is a `RawUser`
whose fields all hold values of the declared primitive types. -/
structure RawUser where
  rank : JsVal
  address : JsVal
  avatarCid : JsVal
  username : JsVal
  gmStreak : JsVal
  xp : JsVal
  level : JsVal
deriving DecidableEq, Repr

/-- A row of the `users` table.  The `address` column is the TEXT primary
key; every committed row has a string address (commit requires
`user.address.toLowerCase()` to have succeeded).  The remaining data columns
store the bound values verbatim. -/
structure UserRow where
  address : String
  rank : JsVal
  username : JsVal
  avatarCid : JsVal
  gmStreak : JsVal
  xp : JsVal
  level : JsVal
  expiresAt : Int
deriving DecidableEq, Repr

/-- A row of the `wallet_data` table: lowercased address primary key, JSON
text payload, expiration timestamp. -/
structure WalletRow where
  address : String
  data : String
  expiresAt : Int
deriving DecidableEq, Repr

/-- A row of the `avatars` table (created by the schema and swept, though no
code path inserts into it). -/
structure AvatarRow where
  cid : String
  expiresAt : Int
deriving DecidableEq, Repr

/-- An entry of the in-memory `userCache` map: the cached user object spread
together with its expiration (`CachedUser extends UserData`). -/
structure CachedUser where
  user : RawUser
  expiresAt : Int
deriving DecidableEq, Repr

/-- An entry of the in-memory `walletCache` map: the address exactly as the
writer supplied it, the JSON text, and the expiration. -/
structure CachedWalletData where
  address : String
  data : String
  expiresAt : Int
deriving DecidableEq, Repr

/-- The complete mutable state of the `db` module: the three SQLite tables
and the three process-wide in-memory caches.  Tables are lists in rowid
order; the caches are association lists (JavaScript `Map`) and a list-backed
set (JavaScript `Set`, which can hold non-string runtime values). -/
structure DbState where
  usersTable : List UserRow
  walletTable : List WalletRow
  avatarsTable : List AvatarRow
  userCache : List (String × CachedUser)
  walletCache : List (String × CachedWalletData)
  avatarCache : List JsVal
deriving DecidableEq, Repr

/-- `Map.get`: first binding of the key, if any. -/
def lookupA {α : Type} (m : List (String × α)) (k : String) : Option α :=
  match m with
  | [] => none
  | p :: rest => if p.1 = k then some p.2 else lookupA rest k

/-- `Map.set`: replace the binding of the key in place, or append one. -/
def setAssoc {α : Type} (m : List (String × α)) (k : String) (v : α) :
    List (String × α) :=
  match m with
  | [] => [(k, v)]
  | p :: rest => if p.1 = k then (k, v) :: rest else p :: setAssoc rest k v

/-- `Map.delete`: drop every binding of the key. -/
def delAssoc {α : Type} (m : List (String × α)) (k : String) :
    List (String × α) :=
  m.filter (fun p => decide (p.1 ≠ k))

/-- `Set.add`: insert the value if it is not already a member. -/
def addToSet (s : List JsVal) (v : JsVal) : List JsVal :=
  if v ∈ s then s else s ++ [v]

/-- ASCII lowercasing of a character (the only case mapping relevant to the
hex addresses handled here). -/
def lowerChar (c : Char) : Char :=
  if 'A' ≤ c ∧ c ≤ 'Z' then Char.ofNat (c.toNat + 32) else c

/-- ASCII lowercasing of a string: models both JavaScript `toLowerCase()`
and SQL `LOWER(...)` (they agree on the ASCII data handled here). -/
def lowerStr (s : String) : String :=
  ⟨s.data.map lowerChar⟩

/-- Decimal digit accumulation for the modelled number parsing. -/
def digitsToNat (l : List Char) (acc : Nat) : Option Nat :=
  match l with
  | [] => some acc
  | c :: rest =>
    if c.isDigit then digitsToNat rest (acc * 10 + (c.toNat - 48)) else none

/-- Integer parsing for the modelled `JSON.parse` number case. -/
def parseIntStr (s : String) : Option Int :=
  match s.data with
  | [] => none
  | '-' :: rest =>
    if rest.isEmpty then none
    else (digitsToNat rest 0).map (fun n => -(n : Int))
  | l => digitsToNat l 0

/-- The fixed TTL applied to every write: 24 hours in milliseconds. -/
def TTL_MS : Int := 24 * 60 * 60 * 1000

/-- Minimal model of the opaque JSON payloads handled by the wallet domain;
the cache layer never inspects them beyond (de)serialization. -/
inductive Json where
  | null
  | num (n : Int)
  | str (s : String)
deriving DecidableEq, Repr

/-- `JSON.stringify` on the modelled payload universe. -/
def jsonStringify : Json → String
  | .null => "null"
  | .num n => toString n
  | .str s => "\"" ++ s ++ "\""

/-- `JSON.parse` on the modelled payload universe: returns `none` exactly
when the text does not deserialize (the thrown `SyntaxError` is modelled as
`none`; every caller in the source wraps the parse in try/catch). -/
def jsonParse (s : String) : Option Json :=
  if 2 ≤ s.length ∧ s.front = '\"' ∧ s.back = '\"' then
    some (.str ((s.drop 1).dropRight 1))
  else if s = "null" then some .null
  else
    match parseIntStr s with
    | some n => some (.num n)
    | none => none

/-- `cleanExpiredEntries`: the sweep run at store open.  Deletes every row
with `expires_at < now` from the three tables (`DELETE FROM ... WHERE
expires_at < ?`) and clears the three in-memory caches. -/
def cleanExpiredEntries (s : DbState) (now : Int) : DbState :=
  { usersTable := s.usersTable.filter (fun r => decide (¬ (r.expiresAt < now))),
    walletTable := s.walletTable.filter (fun r => decide (¬ (r.expiresAt < now))),
    avatarsTable := s.avatarsTable.filter (fun r => decide (¬ (r.expiresAt < now))),
    userCache := [],
    walletCache := [],
    avatarCache := [] }

/-- `isValidUserData`: the record validator.  Checks each field's runtime
type and the bounds: address 1–100 chars, username and avatarCid 1–200
chars, rank/gmStreak/xp/level non-negative numbers. -/
def isValidUserData (u : RawUser) : Bool :=
  (match u.address with
   | .str s => decide (0 < s.length ∧ s.length ≤ 100)
   | _ => false) &&
  (match u.rank with | .num n => decide (0 ≤ n) | _ => false) &&
  (match u.username with
   | .str s => decide (0 < s.length ∧ s.length ≤ 200)
   | _ => false) &&
  (match u.avatarCid with
   | .str s => decide (0 < s.length ∧ s.length ≤ 200)
   | _ => false) &&
  (match u.gmStreak with | .num n => decide (0 ≤ n) | _ => false) &&
  (match u.xp with | .num n => decide (0 ≤ n) | _ => false) &&
  (match u.level with | .num n => decide (0 ≤ n) | _ => false)

/-- Whether `stmt.run` accepts the seven bound fields: `better-sqlite3`
throws when asked to bind `undefined`; strings and numbers always bind. -/
def bindableUser (u : RawUser) : Bool :=
  decide (u.address ≠ .undef ∧ u.rank ≠ .undef ∧ u.username ≠ .undef ∧
    u.avatarCid ≠ .undef ∧ u.gmStreak ≠ .undef ∧ u.xp ≠ .undef ∧
    u.level ≠ .undef)

/-- The `users` row written for a batch element whose address is the string
`a`, bound values stored verbatim. -/
def mkUserRow (u : RawUser) (a : String) (expiresAt : Int) : UserRow :=
  { address := a, rank := u.rank, username := u.username,
    avatarCid := u.avatarCid, gmStreak := u.gmStreak, xp := u.xp,
    level := u.level, expiresAt := expiresAt }

/-- `INSERT OR REPLACE` on the `users` table: the conflicting primary-key
row is deleted and the new row appended. -/
def upsertUserRow (tbl : List UserRow) (r : UserRow) : List UserRow :=
  tbl.filter (fun x => decide (x.address ≠ r.address)) ++ [r]

/-- The body of the `db.transaction` in `saveUsers`, iterating the batch:
per element, `stmt.run` (throws on an `undefined` field), then
`userCache.set(user.address.toLowerCase(), ...)` (throws when the address is
not a string), then `avatarCache.add(user.avatarCid)`.  Returns `none` for
the table when the loop threw (the transaction rolls the table back), always
returning the caches as mutated up to the point of the throw. -/
def runUserInserts (rows : List RawUser) (expiresAt : Int)
    (tbl : List UserRow) (uc : List (String × CachedUser))
    (ac : List JsVal) :
    Option (List UserRow) × List (String × CachedUser) × List JsVal :=
  match rows with
  | [] => (some tbl, uc, ac)
  | u :: rest =>
    if bindableUser u then
      match u.address with
      | .str a =>
        runUserInserts rest expiresAt
          (upsertUserRow tbl (mkUserRow u a expiresAt))
          (setAssoc uc (lowerStr a) ⟨u, expiresAt⟩)
          (addToSet ac u.avatarCid)
      | _ => (none, uc, ac)
    else (none, uc, ac)

/-- `saveUsers`: stamps `expiresAt = Date.now() + TTL_MS`, filters the batch
through the validator, returns without writing when the valid subset is
empty, and otherwise runs the insert transaction over the *unfiltered* input
list (the source passes `users`, not `validUsers`, to the transaction).  On
a throw inside the transaction the table is rolled back but the cache
mutations already performed survive, and the exception propagates. -/
def saveUsers (users : List RawUser) (s : DbState) (now : Int) :
    Except Unit Unit × DbState :=
  let expiresAt := now + TTL_MS
  let validUsers := users.filter isValidUserData
  if validUsers.isEmpty then (.ok (), s)
  else
    match runUserInserts users expiresAt s.usersTable s.userCache
        s.avatarCache with
    | (some tbl, uc, ac) =>
      (.ok (), { s with usersTable := tbl, userCache := uc,
                        avatarCache := ac })
    | (none, uc, ac) =>
      (.error (), { s with userCache := uc, avatarCache := ac })

/-- SQLite value ordering used by `ORDER BY` on a column holding mixed
storage classes: numbers sort before text; numbers by value; text by the
default (byte-wise) collation. -/
def jsLt : JsVal → JsVal → Bool
  | .undef, .undef => false
  | .undef, .num _ => true
  | .undef, .str _ => true
  | .num _, .undef => false
  | .num a, .num b => decide (a < b)
  | .num _, .str _ => true
  | .str _, .undef => false
  | .str _, .num _ => false
  | .str a, .str b => decide (a < b)

/-- `ORDER BY rank ASC` comparison between two `users` rows. -/
def rankLt (r₁ r₂ : UserRow) : Bool :=
  jsLt r₁.rank r₂.rank

/-- Insert into a sorted list, after all elements not strictly greater. -/
def insertSorted {α : Type} (lt : α → α → Bool) (x : α) :
    List α → List α
  | [] => [x]
  | y :: ys => if lt x y then x :: y :: ys else y :: insertSorted lt x ys

/-- Stable sort (models the row ordering produced by `ORDER BY`). -/
def insertionSort {α : Type} (lt : α → α → Bool) : List α → List α
  | [] => []
  | x :: xs => insertSorted lt x (insertionSort lt xs)

/-- The object a `users` row is mapped back to by the read paths. -/
def rowToRaw (r : UserRow) : RawUser :=
  { rank := r.rank, address := .str r.address, avatarCid := r.avatarCid,
    username := r.username, gmStreak := r.gmStreak, xp := r.xp,
    level := r.level }

/-- `getUsers`: `SELECT * FROM users WHERE expires_at > ? ORDER BY rank
ASC`; on an empty result returns `null` untouched; otherwise clears and
repopulates `userCache` and `avatarCache` from the result rows and returns
the rows mapped to user objects. -/
def getUsers (s : DbState) (now : Int) :
    Option (List RawUser) × DbState :=
  let users := insertionSort rankLt
    (s.usersTable.filter (fun r => decide (now < r.expiresAt)))
  if users.isEmpty then (none, s)
  else
    let caches := users.foldl
      (fun p r =>
        (setAssoc p.1 (lowerStr r.address) ⟨rowToRaw r, r.expiresAt⟩,
         addToSet p.2 r.avatarCid))
      (([] : List (String × CachedUser)), ([] : List JsVal))
    (some (users.map rowToRaw),
     { s with userCache := caches.1, avatarCache := caches.2 })

/-- `getUserByAddress`: lowercases the address, serves a non-expired
`userCache` entry, else queries `SELECT * FROM users WHERE LOWER(address) =
? AND expires_at > ?` and repopulates the cache on a hit. -/
def getUserByAddress (address : String) (s : DbState) (now : Int) :
    Option RawUser × DbState :=
  let na := lowerStr address
  let cached := lookupA s.userCache na
  match cached with
  | some c =>
    if now < c.expiresAt then (some c.user, s)
    else getUserByAddressDb na s now
  | none => getUserByAddressDb na s now
where
  /-- The database fallback of `getUserByAddress`. -/
  getUserByAddressDb (na : String) (s : DbState) (now : Int) :
      Option RawUser × DbState :=
    match s.usersTable.find?
        (fun r => decide (lowerStr r.address = na ∧ now < r.expiresAt)) with
    | none => (none, s)
    | some r =>
      (some (rowToRaw r),
       { s with userCache := setAssoc s.userCache na
                  ⟨rowToRaw r, r.expiresAt⟩ })

/-- `isAddressAllowed`: non-expired `userCache` entry, else `SELECT 1 FROM
users WHERE LOWER(address) = ? AND expires_at > ?`.  Does not write to any
cache. -/
def isAddressAllowed (address : String) (s : DbState) (now : Int) : Bool :=
  let na := lowerStr address
  match lookupA s.userCache na with
  | some c =>
    if now < c.expiresAt then true
    else s.usersTable.any
      (fun r => decide (lowerStr r.address = na ∧ now < r.expiresAt))
  | none =>
    s.usersTable.any
      (fun r => decide (lowerStr r.address = na ∧ now < r.expiresAt))

/-- `isAvatarAllowed`: membership of the `avatarCache` set short-circuits to
true (no expiration check); otherwise `SELECT 1 FROM users WHERE avatar_cid
= ? AND expires_at > ?`, adding the CID to the set on a hit. -/
def isAvatarAllowed (cid : String) (s : DbState) (now : Int) :
    Bool × DbState :=
  if JsVal.str cid ∈ s.avatarCache then (true, s)
  else
    let isValid := s.usersTable.any
      (fun r => decide (r.avatarCid = JsVal.str cid ∧ now < r.expiresAt))
    if isValid then
      (true, { s with avatarCache := addToSet s.avatarCache (.str cid) })
    else (false, s)

/-- `INSERT OR REPLACE` on the `wallet_data` table. -/
def upsertWalletRow (tbl : List WalletRow) (r : WalletRow) :
    List WalletRow :=
  tbl.filter (fun x => decide (x.address ≠ r.address)) ++ [r]

/-- `saveWalletData`: stringifies the payload, writes the row under the
lowercased address with `expiresAt = Date.now() + TTL_MS`, and write-through
updates `walletCache` (keyed by the lowercased address, but storing the
address exactly as supplied). -/
def saveWalletData (address : String) (data : Json) (s : DbState)
    (now : Int) : DbState :=
  let expiresAt := now + TTL_MS
  let jsonData := jsonStringify data
  { s with
    walletTable := upsertWalletRow s.walletTable
      ⟨lowerStr address, jsonData, expiresAt⟩,
    walletCache := setAssoc s.walletCache (lowerStr address)
      ⟨address, jsonData, expiresAt⟩ }

/-- The database fallback of `getWalletData`: `SELECT data, expires_at FROM
wallet_data WHERE address = ? AND expires_at > ?`; on a parse failure the
corrupt row is deleted (`DELETE FROM wallet_data WHERE address = ?`) and
`null` returned; on success the cache is repopulated with the row's actual
expiration. -/
def getWalletDataDb (na : String) (s : DbState) (now : Int) :
    Option Json × DbState :=
  match s.walletTable.find?
      (fun r => decide (r.address = na ∧ now < r.expiresAt)) with
  | none => (none, s)
  | some r =>
    match jsonParse r.data with
    | some parsed =>
      (some parsed,
       { s with walletCache := setAssoc s.walletCache na
                  ⟨na, r.data, r.expiresAt⟩ })
    | none =>
      (none, { s with walletTable :=
                 s.walletTable.filter (fun x => decide (x.address ≠ na)) })

/-- `getWalletData`: serves a non-expired `walletCache` entry whose text
parses; a corrupt cache entry is deleted and the read falls through to the
database fallback; a cache miss or expired entry also falls through. -/
def getWalletData (address : String) (s : DbState) (now : Int) :
    Option Json × DbState :=
  let na := lowerStr address
  match lookupA s.walletCache na with
  | some c =>
    if now < c.expiresAt then
      match jsonParse c.data with
      | some parsed => (some parsed, s)
      | none =>
        getWalletDataDb na
          { s with walletCache := delAssoc s.walletCache na } now
    else getWalletDataDb na s now
  | none => getWalletDataDb na s now

/-- The state of a freshly opened store (schema created, nothing saved). -/
def emptySt : DbState :=
  { usersTable := [], walletTable := [], avatarsTable := [],
    userCache := [], walletCache := [], avatarCache := [] }


/-! ### Concrete fixtures used by counterexamples, code-bug traces and
witnesses -/

/-- A valid ranked-user record. -/
def u1 : RawUser :=
  { rank := .num 1, address := .str "0xa", avatarCid := .str "qm1",
    username := .str "u1", gmStreak := .num 0, xp := .num 0, level := .num 0 }

/-- A record rejected by the validator (negative rank) but with every field
present and well-typed, so every field binds. -/
def u2bad : RawUser :=
  { rank := .num (-1), address := .str "0xb", avatarCid := .str "qm2",
    username := .str "u2", gmStreak := .num 0, xp := .num 0, level := .num 0 }

/-- A record with a missing `username` field: rejected by the validator, and
`stmt.run` throws when asked to bind it. -/
def u3missing : RawUser :=
  { rank := .num 3, address := .str "0xc", avatarCid := .str "qm3",
    username := .undef, gmStreak := .num 0, xp := .num 0, level := .num 0 }

/-! ### Properties of the map, set and sorting helpers -/

theorem lookupA_setAssoc_self {α : Type} (m : List (String × α)) (k : String)
    (v : α) : lookupA (setAssoc m k v) k = some v := by
  induction m with
  | nil => simp [setAssoc, lookupA]
  | cons p rest ih =>
    by_cases hp : p.1 = k
    · simp [setAssoc, hp, lookupA]
    · simp [setAssoc, hp, lookupA, ih]

theorem lookupA_setAssoc_ne {α : Type} (m : List (String × α)) (k k' : String)
    (v : α) (h : k' ≠ k) : lookupA (setAssoc m k v) k' = lookupA m k' := by
  induction m with
  | nil => simp [setAssoc, lookupA, Ne.symm h]
  | cons p rest ih =>
    by_cases hp : p.1 = k
    · simp [setAssoc, hp, lookupA, Ne.symm h]
    · simp [setAssoc, hp, lookupA, ih]

theorem lookupA_delAssoc_self {α : Type} (m : List (String × α)) (k : String) :
    lookupA (delAssoc m k) k = none := by
  induction m with
  | nil => simp [delAssoc, lookupA]
  | cons p rest ih =>
    by_cases hp : p.1 = k
    · simpa [delAssoc, hp, lookupA] using ih
    · simpa [delAssoc, hp, lookupA] using ih

theorem mem_insertSorted {α : Type} (lt : α → α → Bool) (x a : α)
    (l : List α) : a ∈ insertSorted lt x l ↔ a = x ∨ a ∈ l := by
  induction l with
  | nil => simp [insertSorted]
  | cons y ys ih =>
    by_cases h : lt x y
    · simp [insertSorted, h]
    · simp [insertSorted, h, ih]
      tauto

theorem mem_insertionSort {α : Type} (lt : α → α → Bool) (a : α)
    (l : List α) : a ∈ insertionSort lt l ↔ a ∈ l := by
  induction l with
  | nil => simp [insertionSort]
  | cons x xs ih => simp [insertionSort, mem_insertSorted, ih]

theorem insertionSort_eq_nil {α : Type} (lt : α → α → Bool) (l : List α) :
    insertionSort lt l = [] ↔ l = [] := by
  cases l with
  | nil => simp [insertionSort]
  | cons x xs =>
    simp only [insertionSort]
    constructor
    · intro h
      have hx : x ∈ insertSorted lt x (insertionSort lt xs) :=
        (mem_insertSorted lt x x _).mpr (Or.inl rfl)
      rw [h] at hx
      cases hx
    · intro h
      cases h

/-! ### Structure of the insert transaction -/

theorem mem_upsertUserRow (tbl : List UserRow) (r x : UserRow)
    (h : x ∈ upsertUserRow tbl r) : x ∈ tbl ∨ x = r := by
  rcases List.mem_append.mp h with h1 | h2
  · exact Or.inl (List.mem_filter.mp h1).1
  · exact Or.inr (List.mem_singleton.mp h2)

theorem upsertUserRow_keeps_addr (tbl : List UserRow) (r : UserRow)
    (a : String) (e : Int) (hr : r.expiresAt = e)
    (h : ∃ x ∈ tbl, x.address = a ∧ x.expiresAt = e) :
    ∃ x ∈ upsertUserRow tbl r, x.address = a ∧ x.expiresAt = e := by
  obtain ⟨x, hx, hxa, hxe⟩ := h
  by_cases hcase : x.address = r.address
  · refine ⟨r, List.mem_append_right _ (List.mem_singleton_self r), ?_, hr⟩
    rw [← hcase, hxa]
  · refine ⟨x, List.mem_append_left _ ?_, hxa, hxe⟩
    exact List.mem_filter.mpr ⟨hx, by simpa using hcase⟩

theorem setAssoc_keeps_exp (uc : List (String × CachedUser)) (k k' : String)
    (u : RawUser) (e : Int)
    (h : ∃ c, lookupA uc k = some c ∧ c.expiresAt = e) :
    ∃ c, lookupA (setAssoc uc k' ⟨u, e⟩) k = some c ∧ c.expiresAt = e := by
  by_cases hk : k = k'
  · subst hk
    exact ⟨⟨u, e⟩, lookupA_setAssoc_self uc k ⟨u, e⟩, rfl⟩
  · obtain ⟨c, hc, he⟩ := h
    exact ⟨c, by rw [lookupA_setAssoc_ne uc k' k ⟨u, e⟩ hk]; exact hc, he⟩

theorem runUserInserts_ok_mem (rows : List RawUser) (e : Int)
    (tbl : List UserRow) (uc : List (String × CachedUser)) (ac : List JsVal)
    (tbl' : List UserRow) (uc' : List (String × CachedUser)) (ac' : List JsVal)
    (h : runUserInserts rows e tbl uc ac = (some tbl', uc', ac')) :
    ∀ r ∈ tbl', r ∈ tbl ∨ r.expiresAt = e := by
  induction rows generalizing tbl uc ac with
  | nil =>
    simp only [runUserInserts, Prod.mk.injEq, Option.some.injEq] at h
    obtain ⟨rfl, -, -⟩ := h
    intro r hr
    exact Or.inl hr
  | cons u rest ih =>
    simp only [runUserInserts] at h
    split at h
    · split at h
      · intro r hr
        rcases ih _ _ _ h r hr with hmem | he
        · rcases mem_upsertUserRow _ _ _ hmem with h1 | h2
          · exact Or.inl h1
          · right
            rw [h2]
            rfl
        · exact Or.inr he
      · simp at h
    · simp at h

theorem runUserInserts_keep (rows : List RawUser) (e : Int)
    (tbl : List UserRow) (uc : List (String × CachedUser)) (ac : List JsVal)
    (tbl' : List UserRow) (uc' : List (String × CachedUser)) (ac' : List JsVal)
    (a : String)
    (h : runUserInserts rows e tbl uc ac = (some tbl', uc', ac'))
    (hbase : ∃ x ∈ tbl, x.address = a ∧ x.expiresAt = e) :
    ∃ x ∈ tbl', x.address = a ∧ x.expiresAt = e := by
  induction rows generalizing tbl uc ac with
  | nil =>
    simp only [runUserInserts, Prod.mk.injEq, Option.some.injEq] at h
    obtain ⟨rfl, -, -⟩ := h
    exact hbase
  | cons u rest ih =>
    simp only [runUserInserts] at h
    split at h
    · split at h
      · exact ih _ _ _ h (upsertUserRow_keeps_addr _ _ _ _ rfl hbase)
      · simp at h
    · simp at h

theorem runUserInserts_keep_cache (rows : List RawUser) (e : Int)
    (tbl : List UserRow) (uc : List (String × CachedUser)) (ac : List JsVal)
    (tbl' : List UserRow) (uc' : List (String × CachedUser)) (ac' : List JsVal)
    (k : String)
    (h : runUserInserts rows e tbl uc ac = (some tbl', uc', ac'))
    (hbase : ∃ c, lookupA uc k = some c ∧ c.expiresAt = e) :
    ∃ c, lookupA uc' k = some c ∧ c.expiresAt = e := by
  induction rows generalizing tbl uc ac with
  | nil =>
    simp only [runUserInserts, Prod.mk.injEq, Option.some.injEq] at h
    obtain ⟨-, rfl, -⟩ := h
    exact hbase
  | cons u rest ih =>
    simp only [runUserInserts] at h
    split at h
    · split at h
      · exact ih _ _ _ h (setAssoc_keeps_exp _ _ _ _ _ hbase)
      · simp at h
    · simp at h

theorem runUserInserts_writes (rows : List RawUser) (e : Int)
    (tbl : List UserRow) (uc : List (String × CachedUser)) (ac : List JsVal)
    (tbl' : List UserRow) (uc' : List (String × CachedUser)) (ac' : List JsVal)
    (h : runUserInserts rows e tbl uc ac = (some tbl', uc', ac')) :
    ∀ u ∈ rows, ∃ a, u.address = JsVal.str a ∧
      (∃ x ∈ tbl', x.address = a ∧ x.expiresAt = e) ∧
      (∃ c, lookupA uc' (lowerStr a) = some c ∧ c.expiresAt = e) := by
  induction rows generalizing tbl uc ac with
  | nil =>
    intro u hu
    cases hu
  | cons u0 rest ih =>
    intro u hu
    simp only [runUserInserts] at h
    split at h
    · split at h
      next a ha =>
        rcases List.mem_cons.mp hu with rfl | hmem
        · refine ⟨a, ha, ?_, ?_⟩
          · refine runUserInserts_keep rest e _ _ _ _ _ _ a h ?_
            exact ⟨mkUserRow u a e,
              List.mem_append_right _ (List.mem_singleton_self _), rfl, rfl⟩
          · refine runUserInserts_keep_cache rest e _ _ _ _ _ _ (lowerStr a) h ?_
            exact ⟨⟨u, e⟩, lookupA_setAssoc_self _ _ _, rfl⟩
        · exact ih _ _ _ h u hmem
      next => simp at h
    · simp at h

/-! ### The shape of records accepted by the validator -/

theorem valid_shape (u : RawUser) (h : isValidUserData u = true) :
    (∃ a, u.address = JsVal.str a) ∧ (∃ n, u.rank = JsVal.num n) ∧
    (∃ s, u.username = JsVal.str s) ∧ (∃ s, u.avatarCid = JsVal.str s) ∧
    (∃ n, u.gmStreak = JsVal.num n) ∧ (∃ n, u.xp = JsVal.num n) ∧
    (∃ n, u.level = JsVal.num n) := by
  unfold isValidUserData at h
  simp only [Bool.and_eq_true] at h
  obtain ⟨⟨⟨⟨⟨⟨h1, h2⟩, h3⟩, h4⟩, h5⟩, h6⟩, h7⟩ := h
  refine ⟨?_, ?_, ?_, ?_, ?_, ?_, ?_⟩
  · revert h1
    cases u.address with
    | str s => exact fun _ => ⟨s, rfl⟩
    | num n => intro h1; simp at h1
    | undef => intro h1; simp at h1
  · revert h2
    cases u.rank with
    | num n => exact fun _ => ⟨n, rfl⟩
    | str s => intro h2; simp at h2
    | undef => intro h2; simp at h2
  · revert h3
    cases u.username with
    | str s => exact fun _ => ⟨s, rfl⟩
    | num n => intro h3; simp at h3
    | undef => intro h3; simp at h3
  · revert h4
    cases u.avatarCid with
    | str s => exact fun _ => ⟨s, rfl⟩
    | num n => intro h4; simp at h4
    | undef => intro h4; simp at h4
  · revert h5
    cases u.gmStreak with
    | num n => exact fun _ => ⟨n, rfl⟩
    | str s => intro h5; simp at h5
    | undef => intro h5; simp at h5
  · revert h6
    cases u.xp with
    | num n => exact fun _ => ⟨n, rfl⟩
    | str s => intro h6; simp at h6
    | undef => intro h6; simp at h6
  · revert h7
    cases u.level with
    | num n => exact fun _ => ⟨n, rfl⟩
    | str s => intro h7; simp at h7
    | undef => intro h7; simp at h7

theorem valid_bindable (u : RawUser) (h : isValidUserData u = true) :
    bindableUser u = true := by
  obtain ⟨⟨a, ha⟩, ⟨n2, h2⟩, ⟨s3, h3⟩, ⟨s4, h4⟩, ⟨n5, h5⟩, ⟨n6, h6⟩, ⟨n7, h7⟩⟩ :=
    valid_shape u h
  simp [bindableUser, ha, h2, h3, h4, h5, h6, h7]

/-- Evaluation of `saveUsers` on a single valid record. -/
theorem saveUsers_single (u : RawUser) (a : String) (s : DbState) (now : Int)
    (hu : isValidUserData u = true) (ha : u.address = JsVal.str a) :
    saveUsers [u] s now =
      (Except.ok (),
       { s with
         usersTable := upsertUserRow s.usersTable (mkUserRow u a (now + TTL_MS)),
         userCache := setAssoc s.userCache (lowerStr a) ⟨u, now + TTL_MS⟩,
         avatarCache := addToSet s.avatarCache u.avatarCid }) := by
  have hb := valid_bindable u hu
  simp only [saveUsers, List.filter, hu, List.isEmpty_cons, runUserInserts, hb,
    if_true, ha]
  rfl

/-- Keeping only rows satisfying a predicate is idempotent. -/
theorem filter_filter_self {β : Type} (p : β → Bool) (l : List β) :
    (l.filter p).filter p = l.filter p :=
  List.filter_eq_self.mpr (fun _ ha => (List.mem_filter.mp ha).2)

/-! ### Claim theorems -/

/-- Claim C7: calling `saveUsers` with an empty batch or a batch in which
every record fails validation is a pure no-op on both the durable store and
the in-memory accelerator: the returned state is exactly the input state. -/
theorem c7_empty_save_noop (us : List RawUser) (s : DbState) (now : Int)
    (h : us.filter isValidUserData = []) :
    saveUsers us s now = (Except.ok (), s) := by
  simp [saveUsers, h]

/-- Witness for C7: a concrete all-invalid batch over a populated state. -/
theorem c7_empty_save_noop_witness :
    saveUsers [u2bad, u3missing] (saveUsers [u1] emptySt 0).2 5 =
      (Except.ok (), (saveUsers [u1] emptySt 0).2) :=
  c7_empty_save_noop [u2bad, u3missing] (saveUsers [u1] emptySt 0).2 5
    (by decide)

/-- Claim C1 (code-bug trace): `saveUsers` caches `avatarCid = "qm1"` in the
avatar accelerator set at time 0; at `TTL_MS + 1` no non-expired `users` row
carries that CID, yet `isAvatarAllowed "qm1"` still returns `true` from the
set, which has no per-entry expiry and is not invalidated by expiration. -/
theorem c1_avatar_allowlist_code_bug :
    (saveUsers [u1] emptySt 0).1 = Except.ok () ∧
    (isAvatarAllowed "qm1" (saveUsers [u1] emptySt 0).2 (TTL_MS + 1)).1 =
      true ∧
    ∀ r ∈ (saveUsers [u1] emptySt 0).2.usersTable,
      ¬ (r.avatarCid = JsVal.str "qm1" ∧ TTL_MS + 1 < r.expiresAt) :=
  ⟨rfl, by decide, by decide⟩

/-- Claim C2 (code-bug trace): the insert transaction runs over the
unfiltered input batch, so a well-typed record failing validation
(`rank = -1`) is persisted and returned by `getUsers`, while a record with a
missing field makes the whole batch throw and roll back, losing the valid
record as well. -/
theorem c2_validation_code_bug :
    isValidUserData u2bad = false ∧
    (saveUsers [u1, u2bad] emptySt 0).1 = Except.ok () ∧
    (∃ r ∈ (saveUsers [u1, u2bad] emptySt 0).2.usersTable,
        rowToRaw r = u2bad) ∧
    (getUsers (saveUsers [u1, u2bad] emptySt 0).2 1).1 = some [u2bad, u1] ∧
    isValidUserData u3missing = false ∧
    (saveUsers [u1, u3missing] emptySt 0).1 = Except.error () ∧
    (saveUsers [u1, u3missing] emptySt 0).2.usersTable = [] :=
  ⟨by decide, rfl, by decide, by decide, by decide, rfl, by decide⟩

/-- Claim C3 counterexample: a batch whose second element throws at bind
time rolls the store back wholly, yet the accelerator retains the entry for
the first element of the failed batch (claim says it retains none). -/
theorem c3_accelerator_counterexample :
    (saveUsers [u1, u3missing] emptySt 0).1 = Except.error () ∧
    (saveUsers [u1, u3missing] emptySt 0).2.usersTable = emptySt.usersTable ∧
    lookupA (saveUsers [u1, u3missing] emptySt 0).2.userCache "0xa" =
      some ⟨u1, TTL_MS⟩ ∧
    (saveUsers [u1, u3missing] emptySt 0).2.avatarCache = [JsVal.str "qm1"] :=
  ⟨rfl, by decide, by decide, by decide⟩

/-- Claim C3 (amended): the store write is all-or-nothing — on a throw the
`users` table is unchanged, and on success every batch element has its
address present in the table and in the accelerator with the batch's
expiration stamp.  The accelerator itself, however, is updated row-by-row
inside the transaction (see the counterexample), not as a unit after
commit. -/
theorem c3_store_atomicity (us : List RawUser) (s : DbState) (now : Int) :
    ((saveUsers us s now).1 = Except.error () →
      (saveUsers us s now).2.usersTable = s.usersTable) ∧
    ((saveUsers us s now).1 = Except.ok () →
      us.filter isValidUserData ≠ [] →
      ∀ u ∈ us, ∃ a, u.address = JsVal.str a ∧
        (∃ r ∈ (saveUsers us s now).2.usersTable,
            r.address = a ∧ r.expiresAt = now + TTL_MS) ∧
        (∃ c, lookupA (saveUsers us s now).2.userCache (lowerStr a) =
            some c ∧ c.expiresAt = now + TTL_MS)) := by
  by_cases hv : (List.filter isValidUserData us).isEmpty
  · constructor
    · intro herr
      simp [saveUsers, hv] at herr
    · intro _ hne
      exact absurd (List.isEmpty_iff.mp hv) hne
  · rcases hrun : runUserInserts us (now + TTL_MS) s.usersTable s.userCache
        s.avatarCache with ⟨otbl, uc2, ac2⟩
    cases otbl with
    | some tbl2 =>
      constructor
      · intro herr
        simp [saveUsers, hv, hrun] at herr
      · intro _ _ u hu
        obtain ⟨a, ha, htbl, hcache⟩ :=
          runUserInserts_writes us (now + TTL_MS) _ _ _ _ _ _ hrun u hu
        refine ⟨a, ha, ?_, ?_⟩
        · simpa [saveUsers, hv, hrun] using htbl
        · simpa [saveUsers, hv, hrun] using hcache
    | none =>
      constructor
      · intro _
        simp [saveUsers, hv, hrun]
      · intro hok
        simp [saveUsers, hv, hrun] at hok

/-- Witness for C3: a successful single-element batch lands in table and
accelerator. -/
theorem c3_store_atomicity_witness :
    ∃ a, u1.address = JsVal.str a ∧
      (∃ r ∈ (saveUsers [u1] emptySt 0).2.usersTable,
          r.address = a ∧ r.expiresAt = 0 + TTL_MS) ∧
      (∃ c, lookupA (saveUsers [u1] emptySt 0).2.userCache (lowerStr a) =
          some c ∧ c.expiresAt = 0 + TTL_MS) :=
  (c3_store_atomicity [u1] emptySt 0).2 rfl (by decide) u1 (by decide)

/-- A `users` row at exactly the sweep boundary. -/
def r5 : UserRow :=
  { address := "0xd", rank := .num 4, username := .str "u5",
    avatarCid := .str "qm5", gmStreak := .num 0, xp := .num 0,
    level := .num 0, expiresAt := 5 }

/-- A state whose three tables each hold one row expiring exactly at 5. -/
def s5 : DbState :=
  { usersTable := [r5], walletTable := [⟨"0xd", "null", 5⟩],
    avatarsTable := [⟨"qm5", 5⟩], userCache := [], walletCache := [],
    avatarCache := [] }

/-- Claim C5 counterexample: sweeping at `now = 5` keeps the rows with
`expiresAt = 5` in all three tables, although the claim requires every row
with `expiresAt ≤ now` to be deleted. -/
theorem c5_sweep_boundary_counterexample :
    r5.expiresAt ≤ (5 : Int) ∧
    (cleanExpiredEntries s5 5).usersTable = [r5] ∧
    (cleanExpiredEntries s5 5).walletTable = [⟨"0xd", "null", 5⟩] ∧
    (cleanExpiredEntries s5 5).avatarsTable = [⟨"qm5", 5⟩] := by decide

/-- Claim C5 (amended): the sweep deletes from all three row sets exactly
the rows with `expiresAt` strictly less than the current time (a row with
`expiresAt = now` survives, though reads already ignore it), clears the
in-memory caches, and is idempotent at a fixed time. -/
theorem c5_sweep (s : DbState) (now : Int) :
    (∀ r : UserRow, r ∈ (cleanExpiredEntries s now).usersTable ↔
        r ∈ s.usersTable ∧ now ≤ r.expiresAt) ∧
    (∀ r : WalletRow, r ∈ (cleanExpiredEntries s now).walletTable ↔
        r ∈ s.walletTable ∧ now ≤ r.expiresAt) ∧
    (∀ r : AvatarRow, r ∈ (cleanExpiredEntries s now).avatarsTable ↔
        r ∈ s.avatarsTable ∧ now ≤ r.expiresAt) ∧
    (cleanExpiredEntries s now).userCache = [] ∧
    (cleanExpiredEntries s now).walletCache = [] ∧
    (cleanExpiredEntries s now).avatarCache = [] ∧
    cleanExpiredEntries (cleanExpiredEntries s now) now =
      cleanExpiredEntries s now := by
  refine ⟨?_, ?_, ?_, rfl, rfl, rfl, ?_⟩
  · intro r
    simp [cleanExpiredEntries, List.mem_filter, not_lt]
  · intro r
    simp [cleanExpiredEntries, List.mem_filter, not_lt]
  · intro r
    simp [cleanExpiredEntries, List.mem_filter, not_lt]
  · simp only [cleanExpiredEntries]
    simp [filter_filter_self]

/-- Witness for C5: the boundary row survives the concrete sweep. -/
theorem c5_sweep_witness :
    r5 ∈ (cleanExpiredEntries s5 5).usersTable :=
  ((c5_sweep s5 5).1 r5).mpr ⟨by decide, by decide⟩

/-- A state with a corrupt wallet row: the store row for `"0xa"` is live but
unparsable, and the accelerator holds an already-expired entry for the same
address. -/
def s8 : DbState :=
  { usersTable := [], walletTable := [⟨"0xa", "\x7b", 20⟩], avatarsTable := [],
    userCache := [], walletCache := [("0xa", ⟨"0xa", "\x7b", 5⟩)],
    avatarCache := [] }

/-- Claim C8 counterexample: reading the corrupt wallet row returns absent
and purges the store row, but the (expired) accelerator entry for the
address is not evicted, contrary to the claim's "any accelerator entry for
that address is evicted". -/
theorem c8_eviction_counterexample :
    (getWalletData "0xa" s8 10).1 = none ∧
    (getWalletData "0xa" s8 10).2.walletTable = [] ∧
    lookupA (getWalletData "0xa" s8 10).2.walletCache "0xa" =
      some ⟨"0xa", "\x7b", 5⟩ := by decide

/-! ### Read-path lemmas -/

theorem getUserByAddressDb_found (na : String) (s : DbState) (now : Int) :
    ((getUserByAddress.getUserByAddressDb na s now).1).isSome = true ↔
      ∃ r ∈ s.usersTable, lowerStr r.address = na ∧ now < r.expiresAt := by
  unfold getUserByAddress.getUserByAddressDb
  cases hf : List.find?
      (fun r => decide (lowerStr r.address = na ∧ now < r.expiresAt))
      s.usersTable with
  | none =>
    simp only [hf, Option.isSome_none]
    constructor
    · intro h
      cases h
    · rintro ⟨r, hr, hp⟩
      have h2 := List.find?_eq_none.mp hf r hr
      simp only [decide_eq_true_eq] at h2
      exact absurd hp h2
  | some r =>
    simp only [hf]
    constructor
    · intro _
      refine ⟨r, List.mem_of_find?_eq_some hf, ?_⟩
      have hp := List.find?_some hf
      simpa using hp
    · intro _
      rfl

theorem getUserByAddressDb_none (na : String) (s : DbState) (now : Int)
    (h : (getUserByAddress.getUserByAddressDb na s now).1 = none) :
    ∀ r ∈ s.usersTable, ¬ (lowerStr r.address = na ∧ now < r.expiresAt) := by
  unfold getUserByAddress.getUserByAddressDb at h
  cases hf : List.find?
      (fun r => decide (lowerStr r.address = na ∧ now < r.expiresAt))
      s.usersTable with
  | some r =>
    rw [hf] at h
    simp at h
  | none =>
    intro r hr
    have h2 := List.find?_eq_none.mp hf r hr
    simpa using h2

theorem getUserByAddressDb_mem (na : String) (s : DbState) (now : Int)
    (u : RawUser)
    (h : (getUserByAddress.getUserByAddressDb na s now).1 = some u) :
    ∃ r ∈ s.usersTable, u = rowToRaw r := by
  unfold getUserByAddress.getUserByAddressDb at h
  cases hf : List.find?
      (fun r => decide (lowerStr r.address = na ∧ now < r.expiresAt))
      s.usersTable with
  | none =>
    rw [hf] at h
    cases h
  | some r =>
    rw [hf] at h
    simp only [Option.some.injEq] at h
    exact ⟨r, List.mem_of_find?_eq_some hf, h.symm⟩

theorem getWalletDataDb_none (na : String) (s' : DbState) (now : Int)
    (h : (getWalletDataDb na s' now).1 = none) :
    (∀ r ∈ s'.walletTable, ¬ (r.address = na ∧ now < r.expiresAt)) ∨
    ∃ r, s'.walletTable.find?
        (fun x => decide (x.address = na ∧ now < x.expiresAt)) = some r ∧
      jsonParse r.data = none := by
  unfold getWalletDataDb at h
  cases hf : List.find?
      (fun r => decide (r.address = na ∧ now < r.expiresAt))
      s'.walletTable with
  | none =>
    left
    intro r hr
    have h2 := List.find?_eq_none.mp hf r hr
    simpa using h2
  | some r =>
    simp only [hf] at h
    cases hp : jsonParse r.data with
    | some j =>
      simp only [hp] at h
      simp at h
    | none =>
      exact Or.inr ⟨r, rfl, hp⟩

/-! ### Claim C4 -/

/-- A user object as the accelerator holds it in the C4 counterexample. -/
def uMem : RawUser :=
  { rank := .num 1, address := .str "0xa", avatarCid := .str "qm1",
    username := .str "memname", gmStreak := .num 0, xp := .num 0,
    level := .num 0 }

/-- The store row for the same address with a different username. -/
def rStore : UserRow :=
  { address := "0xa", rank := .num 1, username := .str "storename",
    avatarCid := .str "qm1", gmStreak := .num 0, xp := .num 0,
    level := .num 0, expiresAt := 100 }

/-- A state whose accelerator and store disagree for address `"0xa"` (such
states arise from a partially failed batch, see the C3 counterexample). -/
def s4 : DbState :=
  { usersTable := [rStore], walletTable := [], avatarsTable := [],
    userCache := [("0xa", ⟨uMem, 100⟩)], walletCache := [],
    avatarCache := [] }

/-- Claim C4 counterexample: the accelerator holds a non-expired entry for
the users domain, yet `getUsers` answers from the store (the returned
username is the store's, not the memory entry's): `getUsers` has no memory
fast-path. -/
theorem c4_getUsers_counterexample :
    lookupA s4.userCache "0xa" = some ⟨uMem, 100⟩ ∧ (10 : Int) < 100 ∧
    (getUsers s4 10).1 = some [rowToRaw rStore] ∧
    rowToRaw rStore ≠ uMem := by decide

/-- Claim C4 (amended): `getUserByAddress`, `isAddressAllowed`,
`isAvatarAllowed` and `getWalletData` serve a usable accelerator entry
without consulting the store; `getUsers` always queries the store.  All five
reads fall through to the durable store before reporting absent: an absent
answer implies the store itself holds no matching live row (for the wallet
domain: no live row, or the row found is corrupt and was purged). -/
theorem c4_read_order (s : DbState) (now : Int) (address cid : String) :
    (∀ c, lookupA s.userCache (lowerStr address) = some c →
        now < c.expiresAt → getUserByAddress address s now = (some c.user, s)) ∧
    (∀ c, lookupA s.userCache (lowerStr address) = some c →
        now < c.expiresAt → isAddressAllowed address s now = true) ∧
    (JsVal.str cid ∈ s.avatarCache → isAvatarAllowed cid s now = (true, s)) ∧
    (∀ w j, lookupA s.walletCache (lowerStr address) = some w →
        now < w.expiresAt → jsonParse w.data = some j →
        getWalletData address s now = (some j, s)) ∧
    ((getUserByAddress address s now).1 = none →
        ∀ r ∈ s.usersTable,
          ¬ (lowerStr r.address = lowerStr address ∧ now < r.expiresAt)) ∧
    (isAddressAllowed address s now = false →
        ∀ r ∈ s.usersTable,
          ¬ (lowerStr r.address = lowerStr address ∧ now < r.expiresAt)) ∧
    ((isAvatarAllowed cid s now).1 = false →
        ∀ r ∈ s.usersTable,
          ¬ (r.avatarCid = JsVal.str cid ∧ now < r.expiresAt)) ∧
    ((getUsers s now).1 = none → ∀ r ∈ s.usersTable, ¬ now < r.expiresAt) ∧
    ((getWalletData address s now).1 = none →
        (∀ r ∈ s.walletTable,
            ¬ (r.address = lowerStr address ∧ now < r.expiresAt)) ∨
        ∃ r, s.walletTable.find?
            (fun x =>
              decide (x.address = lowerStr address ∧ now < x.expiresAt)) =
            some r ∧ jsonParse r.data = none) := by
  refine ⟨?_, ?_, ?_, ?_, ?_, ?_, ?_, ?_, ?_⟩
  · intro c hc he
    simp [getUserByAddress, hc, he]
  · intro c hc he
    simp [isAddressAllowed, hc, he]
  · intro hmem
    simp [isAvatarAllowed, hmem]
  · intro w j hw he hj
    simp [getWalletData, hw, he, hj]
  · intro h
    cases hc : lookupA s.userCache (lowerStr address) with
    | some c =>
      by_cases he : now < c.expiresAt
      · simp [getUserByAddress, hc, he] at h
      · simp only [getUserByAddress, hc, if_neg he] at h
        exact getUserByAddressDb_none _ s now h
    | none =>
      simp only [getUserByAddress, hc] at h
      exact getUserByAddressDb_none _ s now h
  · intro h
    cases hc : lookupA s.userCache (lowerStr address) with
    | some c =>
      by_cases he : now < c.expiresAt
      · simp [isAddressAllowed, hc, he] at h
      · simp only [isAddressAllowed, hc, if_neg he] at h
        intro r hr
        have h2 := List.any_eq_false.mp h r hr
        simpa using h2
    | none =>
      simp only [isAddressAllowed, hc] at h
      intro r hr
      have h2 := List.any_eq_false.mp h r hr
      simpa using h2
  · intro h
    by_cases hmem : JsVal.str cid ∈ s.avatarCache
    · simp [isAvatarAllowed, hmem] at h
    · by_cases hq : s.usersTable.any
          (fun r => decide (r.avatarCid = JsVal.str cid ∧ now < r.expiresAt))
      · exfalso
        simp only [isAvatarAllowed, if_neg hmem, hq, if_true] at h
        simp at h
      · intro r hr
        have h2 := List.any_eq_false.mp (Bool.eq_false_iff.mpr hq) r hr
        simpa using h2
  · intro h
    by_cases hemp : (insertionSort rankLt
        (s.usersTable.filter (fun r => decide (now < r.expiresAt)))).isEmpty
    · have hnil := (insertionSort_eq_nil rankLt _).mp (List.isEmpty_iff.mp hemp)
      intro r hr
      have h2 := List.filter_eq_nil_iff.mp hnil r hr
      simpa using h2
    · exfalso
      simp only [getUsers] at h
      rw [if_neg hemp] at h
      simp at h
  · intro h
    cases hc : lookupA s.walletCache (lowerStr address) with
    | some w =>
      by_cases he : now < w.expiresAt
      · cases hp : jsonParse w.data with
        | some j =>
          simp [getWalletData, hc, he, hp] at h
        | none =>
          simp only [getWalletData, hc, if_pos he, hp] at h
          exact getWalletDataDb_none (lowerStr address)
            { s with walletCache := delAssoc s.walletCache (lowerStr address) }
            now h
      · simp only [getWalletData, hc, if_neg he] at h
        exact getWalletDataDb_none _ _ now h
    | none =>
      simp only [getWalletData, hc] at h
      exact getWalletDataDb_none _ _ now h

/-- Witness for C4: the avatar-set fast-path answers `true` from a
populated accelerator. -/
theorem c4_read_order_witness :
    isAvatarAllowed "qm1" (saveUsers [u1] emptySt 0).2 1 =
      (true, (saveUsers [u1] emptySt 0).2) :=
  (c4_read_order (saveUsers [u1] emptySt 0).2 1 "0xa" "qm1").2.2.1 (by decide)

/-! ### Claim C8 -/

/-- Claim C8 (amended): when the live stored wallet payload for an address
fails to deserialize (and any usable accelerator entry for the address is
also corrupt, as holds for every state the module itself produces),
`getWalletData` returns absent without propagating an error, deletes every
wallet row for that address from the store, and leaves no non-expired
accelerator entry for the address (an already-expired entry may remain in
the map; it is never served). -/
theorem c8_corruption (s : DbState) (address : String) (now : Int)
    (r0 : WalletRow)
    (h1 : s.walletTable.find?
        (fun r => decide (r.address = lowerStr address ∧ now < r.expiresAt)) =
        some r0)
    (h2 : jsonParse r0.data = none)
    (h3 : ∀ c, lookupA s.walletCache (lowerStr address) = some c →
        now < c.expiresAt → jsonParse c.data = none) :
    (getWalletData address s now).1 = none ∧
    (∀ r ∈ (getWalletData address s now).2.walletTable,
        r.address ≠ lowerStr address) ∧
    (∀ c, lookupA (getWalletData address s now).2.walletCache
        (lowerStr address) = some c → ¬ now < c.expiresAt) := by
  cases hc : lookupA s.walletCache (lowerStr address) with
  | some c =>
    by_cases he : now < c.expiresAt
    · have hcorrupt := h3 c hc he
      simp only [getWalletData, hc, if_pos he, hcorrupt, getWalletDataDb,
        h1, h2]
      refine ⟨trivial, ?_, ?_⟩
      · intro r hr
        have hp := (List.mem_filter.mp hr).2
        simpa using hp
      · intro c' hc'
        rw [lookupA_delAssoc_self] at hc'
        exact Option.noConfusion hc'
    · simp only [getWalletData, hc, if_neg he, getWalletDataDb, h1, h2]
      refine ⟨trivial, ?_, ?_⟩
      · intro r hr
        have hp := (List.mem_filter.mp hr).2
        simpa using hp
      · intro c' hc'
        obtain rfl : c = c' := Option.some_inj.mp hc'
        exact he
  | none =>
    simp only [getWalletData, hc, getWalletDataDb, h1, h2]
    refine ⟨trivial, ?_, ?_⟩
    · intro r hr
      have hp := (List.mem_filter.mp hr).2
      simpa using hp
    · intro c' hc'
      exact Option.noConfusion hc'

/-- A state holding only a corrupt live wallet row, accelerator cold. -/
def s8b : DbState :=
  { usersTable := [], walletTable := [⟨"0xb", "\x7b", 20⟩], avatarsTable := [],
    userCache := [], walletCache := [], avatarCache := [] }

/-- Witness for C8: reading the corrupt row through an upper-cased address
returns absent and purges the store. -/
theorem c8_corruption_witness :
    (getWalletData "0XB" s8b 10).1 = none ∧
    (∀ r ∈ (getWalletData "0XB" s8b 10).2.walletTable,
        r.address ≠ lowerStr "0XB") ∧
    (∀ c, lookupA (getWalletData "0XB" s8b 10).2.walletCache
        (lowerStr "0XB") = some c → ¬ (10 : Int) < c.expiresAt) :=
  c8_corruption s8b "0XB" 10 ⟨"0xb", "\x7b", 20⟩ (by decide) (by decide)
    (by intro c hc _; simp [s8b, lookupA] at hc)

/-! ### Claims C9 and C10 -/

/-- Claim C9: address lookup depends on the address only through its
lowercasing, and a returned row is exactly an entry of the accelerator or of
the store (so the stored spelling of the address is preserved). -/
theorem c9_case_insensitive (s : DbState) (now : Int) (a b : String)
    (hab : lowerStr a = lowerStr b) :
    getUserByAddress a s now = getUserByAddress b s now ∧
    ∀ u, (getUserByAddress a s now).1 = some u →
      (∃ c, lookupA s.userCache (lowerStr a) = some c ∧ now < c.expiresAt ∧
          u = c.user) ∨
      ∃ r ∈ s.usersTable, u = rowToRaw r := by
  constructor
  · unfold getUserByAddress
    rw [hab]
  · intro u hu
    simp only [getUserByAddress] at hu
    cases hc : lookupA s.userCache (lowerStr a) with
    | some c =>
      rw [hc] at hu
      dsimp only at hu
      by_cases he : now < c.expiresAt
      · rw [if_pos he] at hu
        simp only [Option.some.injEq] at hu
        exact Or.inl ⟨c, rfl, he, hu.symm⟩
      · rw [if_neg he] at hu
        exact Or.inr (getUserByAddressDb_mem _ s now u hu)
    | none =>
      rw [hc] at hu
      dsimp only at hu
      exact Or.inr (getUserByAddressDb_mem _ s now u hu)

/-- The state after one successful single-user save, used by witnesses. -/
def s9 : DbState := (saveUsers [u1] emptySt 0).2

/-- Witness for C9: upper-cased lookup coincides with the saved-case
lookup on a populated state. -/
theorem c9_case_insensitive_witness :
    getUserByAddress "0XA" s9 1 = getUserByAddress "0xa" s9 1 :=
  (c9_case_insensitive s9 1 "0XA" "0xa" (by decide)).1

/-- Claim C10: `isAddressAllowed` answers `true` exactly when
`getUserByAddress` returns a row, over both the accelerator fast-path and
the store fallback. -/
theorem c10_allowed_iff_found (s : DbState) (address : String) (now : Int) :
    isAddressAllowed address s now = true ↔
      ((getUserByAddress address s now).1).isSome = true := by
  simp only [isAddressAllowed, getUserByAddress]
  cases hc : lookupA s.userCache (lowerStr address) with
  | some c =>
    dsimp only
    by_cases he : now < c.expiresAt
    · simp [he]
    · rw [if_neg he, if_neg he, getUserByAddressDb_found, List.any_eq_true]
      simp
  | none =>
    dsimp only
    rw [getUserByAddressDb_found, List.any_eq_true]
    simp

/-- Witness for C10: the equivalence evaluated on a populated state. -/
theorem c10_allowed_iff_found_witness :
    ((getUserByAddress "0xA" s9 1).1).isSome = true :=
  (c10_allowed_iff_found s9 "0xA" 1).mp (by decide)

/-! ### Claim C6 -/

theorem getUsers_mem (s : DbState) (now : Int) (u : RawUser) :
    (∃ l, (getUsers s now).1 = some l ∧ u ∈ l) ↔
      ∃ r ∈ s.usersTable, now < r.expiresAt ∧ rowToRaw r = u := by
  by_cases hemp : (insertionSort rankLt
      (s.usersTable.filter (fun r => decide (now < r.expiresAt)))).isEmpty
  · have hnil := (insertionSort_eq_nil rankLt _).mp (List.isEmpty_iff.mp hemp)
    constructor
    · rintro ⟨l, hl, -⟩
      simp only [getUsers] at hl
      rw [if_pos hemp] at hl
      cases hl
    · rintro ⟨r, hr, ht, -⟩
      have h2 := List.filter_eq_nil_iff.mp hnil r hr
      simp only [decide_eq_true_eq] at h2
      exact absurd ht h2
  · constructor
    · rintro ⟨l, hl, hu⟩
      simp only [getUsers] at hl
      rw [if_neg hemp] at hl
      simp only [Option.some.injEq] at hl
      subst hl
      obtain ⟨r, hrmem, hru⟩ := List.mem_map.mp hu
      have hr2 := (mem_insertionSort rankLt r _).mp hrmem
      have hr3 := List.mem_filter.mp hr2
      exact ⟨r, hr3.1, by simpa using hr3.2, hru⟩
    · rintro ⟨r, hr, ht, hru⟩
      refine ⟨(insertionSort rankLt (s.usersTable.filter
          (fun x => decide (now < x.expiresAt)))).map rowToRaw, ?_, ?_⟩
      · simp only [getUsers]
        rw [if_neg hemp]
      · refine List.mem_map.mpr ⟨r, ?_, hru⟩
        exact (mem_insertionSort rankLt r _).mpr
          (List.mem_filter.mpr ⟨hr, by simpa using ht⟩)

/-- Claim C6: every write stamps its rows with the fixed 24-hour TTL
(`expiresAt = now + TTL_MS`, for both the users and the wallet domain), and
reads filter on `expiresAt > now`: a row saved at `now` is returned by
`getUsers` at exactly the times `t < now + TTL_MS` — present just before
the boundary and absent from the boundary on, with no sweep involved. -/
theorem c6_ttl_boundary (s : DbState) (now t : Int) (u : RawUser)
    (hu : isValidUserData u = true) :
    (∀ us, ∀ r ∈ (saveUsers us s now).2.usersTable,
        r ∈ s.usersTable ∨ r.expiresAt = now + TTL_MS) ∧
    (∀ a d, ∀ r ∈ (saveWalletData a d s now).walletTable,
        r ∈ s.walletTable ∨ r.expiresAt = now + TTL_MS) ∧
    (saveUsers [u] s now).1 = Except.ok () ∧
    ((∃ l, (getUsers (saveUsers [u] s now).2 t).1 = some l ∧ u ∈ l) ↔
        t < now + TTL_MS) := by
  obtain ⟨⟨a, ha⟩, -⟩ := valid_shape u hu
  have hsingle := saveUsers_single u a s now hu ha
  refine ⟨?_, ?_, ?_, ?_⟩
  · intro us r hr
    by_cases hv : (List.filter isValidUserData us).isEmpty
    · left
      have hstate : (saveUsers us s now).2 = s := by simp [saveUsers, hv]
      rwa [hstate] at hr
    · rcases hrun : runUserInserts us (now + TTL_MS) s.usersTable s.userCache
          s.avatarCache with ⟨otbl, uc2, ac2⟩
      cases otbl with
      | some tbl2 =>
        have htbl : (saveUsers us s now).2.usersTable = tbl2 := by
          simp [saveUsers, hv, hrun]
        rw [htbl] at hr
        exact runUserInserts_ok_mem us (now + TTL_MS) _ _ _ _ _ _ hrun r hr
      | none =>
        have htbl : (saveUsers us s now).2.usersTable = s.usersTable := by
          simp [saveUsers, hv, hrun]
        rw [htbl] at hr
        exact Or.inl hr
  · intro a' d r hr
    simp only [saveWalletData, upsertWalletRow] at hr
    rcases List.mem_append.mp hr with h1 | h2
    · exact Or.inl (List.mem_filter.mp h1).1
    · right
      rw [List.mem_singleton.mp h2]
  · rw [hsingle]
  · rw [hsingle, getUsers_mem]
    constructor
    · rintro ⟨r, hrmem, hrt, hru⟩
      have haddr : r.address = a := by
        have h1 : (rowToRaw r).address = u.address := by rw [hru]
        rw [ha] at h1
        simpa [rowToRaw] using h1
      simp only [upsertUserRow] at hrmem
      rcases List.mem_append.mp hrmem with h1 | h2
      · exfalso
        have hp := (List.mem_filter.mp h1).2
        simp only [mkUserRow, decide_eq_true_eq] at hp
        exact hp haddr
      · rw [List.mem_singleton.mp h2] at hrt
        simpa [mkUserRow] using hrt
    · intro ht
      refine ⟨mkUserRow u a (now + TTL_MS), ?_, ?_, ?_⟩
      · simp only [upsertUserRow]
        exact List.mem_append_right _ (List.mem_singleton_self _)
      · simpa [mkUserRow] using ht
      · cases u with
        | mk rk addr cid un gm hxp lv =>
          simp only [JsVal.str.injEq] at ha
          simp [rowToRaw, mkUserRow, ha]

/-- Witness for C6: a user saved at time 0 is visible at 23h59m and gone at
24h00m01s. -/
theorem c6_ttl_boundary_witness :
    (∃ l, (getUsers (saveUsers [u1] emptySt 0).2 86340000).1 = some l ∧
        u1 ∈ l) ∧
    ¬ (∃ l, (getUsers (saveUsers [u1] emptySt 0).2 86401000).1 = some l ∧
        u1 ∈ l) := by
  constructor
  · exact (c6_ttl_boundary emptySt 0 86340000 u1 (by decide)).2.2.2.mpr
      (by decide)
  · intro hcontra
    have hlt := (c6_ttl_boundary emptySt 0 86401000 u1 (by decide)).2.2.2.mp
      hcontra
    exact absurd hlt (by decide)

end Layer3
